import Mathlib

/-!
# TunnelDronePCL — verification of the scan-stitching pipeline

A shallow embedding, in Lean 4, of the core operations of the
TunnelDronePCL repository (`source/main.cpp`, `source/stitched_cloud.cpp`,
`point_cloud_cleanup.cpp`), together with theorems settling the
specification claims.  Machine doubles are modelled as rationals; an
out-of-bounds `std::vector` access (undefined behaviour in C++) is
modelled as an `Option`/`Except` failure value.
-/

namespace TunnelDrone

/-- Pose-prior record for one frame (`TransformData` declared in
`stitched_cloud.h`).  Doubles are modelled as rationals.  Modelled from the
spec: the defining header `stitched_cloud.h` is missing from the sources, and
the spec states that a default-constructed record has all-zero pose and zero
confidence, so every field defaults to `0`. -/
structure TransformData where
  dx : ℚ := 0
  dy : ℚ := 0
  dz : ℚ := 0
  rotx : ℚ := 0
  roty : ℚ := 0
  rotz : ℚ := 0
  confidence : ℚ := 0
deriving DecidableEq, Repr

/-- Fieldwise accumulation of one record into another: the `+=` lines of
`averageTransformationData` (`source/main.cpp:220-226`). -/
def tdAdd (a b : TransformData) : TransformData :=
  ⟨a.dx + b.dx, a.dy + b.dy, a.dz + b.dz, a.rotx + b.rotx, a.roty + b.roty,
   a.rotz + b.rotz, a.confidence + b.confidence⟩

/-- Fieldwise division by `vals_per_cloud`: the `/=` lines of
`averageTransformationData` (`source/main.cpp:228-234`). -/
def tdDiv (a : TransformData) (v : ℚ) : TransformData :=
  ⟨a.dx / v, a.dy / v, a.dz / v, a.rotx / v, a.roty / v, a.rotz / v,
   a.confidence / v⟩

/-- One iteration of the outer averaging loop of `averageTransformationData`
(`source/main.cpp:216-235`) at loop index `i`: read `transformations[i]`,
accumulate `transformations[i+j]` for `j = 1 .. v-1` into it, then divide the
entry by `v`.  A `std::vector::operator[]` access at an index `≥ size()` is
undefined behaviour in the C++ and is modelled as `none`. -/
def avgBlock (ts : List TransformData) (i v : ℕ) : Option (List TransformData) :=
  match ts[i]? with
  | none => none
  | some base =>
    match (List.range (v - 1)).foldlM (fun acc j =>
        match ts[i + j + 1]? with
        | none => none
        | some x => some (tdAdd acc x)) base with
    | none => none
    | some s => some (ts.set i (tdDiv s (v : ℚ)))

/-- Iteration count of the outer averaging loop
`for (int i = 0; i < transformations.size() + vals_per_cloud; i += vals_per_cloud)`
(`source/main.cpp:216`): the number of multiples of `v` below `len + v`. -/
def avgIters (len v : ℕ) : ℕ := (len + 2 * v - 1) / v

/-- The averaging pass of `averageTransformationData`
(`source/main.cpp:216-235`).  The loop bound is
`i < transformations.size() + vals_per_cloud`, so the final iteration always
starts at an index `i ≥ size()`. -/
def averagePass (ts : List TransformData) (v : ℕ) : Option (List TransformData) :=
  (List.range (avgIters ts.length v)).foldlM (fun acc m => avgBlock acc (m * v) v) ts

/-- `std::vector::erase` at position `k`: erasing at or past `end()` is
undefined behaviour, modelled as `none`. -/
def eraseAt (ts : List TransformData) (k : ℕ) : Option (List TransformData) :=
  if k < ts.length then some (ts.eraseIdx k) else none

/-- Body of the compaction loop of `averageTransformationData`
(`source/main.cpp:240-243`): erase `vals_per_cloud` times at position
`i + 1`. -/
def eraseBlock (ts : List TransformData) (i v : ℕ) : Option (List TransformData) :=
  (List.range v).foldlM (fun acc _ => eraseAt acc (i + 1)) ts

/-- A successful `eraseAt` never lengthens the vector. -/
theorem eraseAt_length_le {ts ts2 : List TransformData} {k : ℕ}
    (h : eraseAt ts k = some ts2) : ts2.length ≤ ts.length := by
  unfold eraseAt at h
  split at h
  · cases h
    exact (List.length_eraseIdx_le _ _)
  · cases h

/-- A successful `eraseBlock` never lengthens the vector. -/
theorem eraseBlock_length_le {ts ts2 : List TransformData} {i v : ℕ}
    (h : eraseBlock ts i v = some ts2) : ts2.length ≤ ts.length := by
  unfold eraseBlock at h
  generalize hl : List.range v = l at h
  clear hl
  induction l generalizing ts with
  | nil => cases h; exact le_rfl
  | cons x xs ih =>
    simp only [List.foldlM_cons] at h
    cases he : eraseAt ts (i + 1) with
    | none => rw [he] at h; cases h
    | some ts1 =>
      rw [he] at h
      exact le_trans (ih h) (eraseAt_length_le he)

/-- The compaction loop of `averageTransformationData`
(`source/main.cpp:237-245`): `while (i < transformations.size())` erase a
block and increment `i`. -/
def erasePass (ts : List TransformData) (v i : ℕ) : Option (List TransformData) :=
  if _hi : i < ts.length then
    match he : eraseBlock ts i v with
    | none => none
    | some ts2 => erasePass ts2 v (i + 1)
  else some ts
termination_by ts.length - i
decreasing_by
  have hle := eraseBlock_length_le he
  omega

/-- `averageTransformationData` (`source/main.cpp:213-246`): the averaging
pass followed by the compaction pass.  A result of `none` means the C++
performed an out-of-bounds vector access (undefined behaviour). -/
def averageTransformationData (ts : List TransformData) (v : ℕ) :
    Option (List TransformData) :=
  match averagePass ts v with
  | none => none
  | some ts1 => erasePass ts1 v 0

/-- A successful `avgBlock` preserves the vector's length. -/
theorem avgBlock_length {ts ts2 : List TransformData} {i v : ℕ}
    (h : avgBlock ts i v = some ts2) : ts2.length = ts.length := by
  unfold avgBlock at h
  split at h
  · cases h
  · split at h
    · cases h
    · cases h
      exact List.length_set ts i _

/-- An `Option`-valued fold fails when some element of the list fails from
every state satisfying a preserved invariant. -/
theorem foldlM_none_of_mem {α β : Type} (P : β → Prop) (f : β → α → Option β)
    (hpres : ∀ b b2 x, P b → f b x = some b2 → P b2) (a : α)
    (hfail : ∀ b, P b → f b a = none) :
    ∀ (l : List α) (b : β), P b → a ∈ l → l.foldlM f b = none := by
  intro l
  induction l with
  | nil => intro b _ hmem; cases hmem
  | cons x xs ih =>
    intro b hP hmem
    rcases List.mem_cons.1 hmem with rfl | hmem2
    · simp only [List.foldlM_cons, hfail b hP]
      rfl
    · cases hx : f b x with
      | none =>
        simp only [List.foldlM_cons, hx]
        rfl
      | some b2 =>
        simp only [List.foldlM_cons, hx]
        exact ih b2 (hpres b b2 x hP hx) hmem2

/-- Arithmetic of the overshooting loop bound: with `v ≥ 1`, the final
iteration index `(avgIters len v - 1) * v` is at least `len`, i.e. out of
bounds. -/
theorem avgIters_last_ge (len v : ℕ) (hv : 1 ≤ v) :
    1 ≤ avgIters len v ∧ len ≤ (avgIters len v - 1) * v := by
  unfold avgIters
  have hdm := Nat.div_add_mod (len + 2 * v - 1) v
  have hr : (len + 2 * v - 1) % v < v := Nat.mod_lt _ hv
  have hk1 : 1 ≤ (len + 2 * v - 1) / v := by
    rcases Nat.eq_zero_or_pos ((len + 2 * v - 1) / v) with hk | hk
    · rw [hk, Nat.mul_zero, Nat.zero_add] at hdm
      omega
    · exact hk
  refine ⟨hk1, ?_⟩
  rw [Nat.sub_mul, Nat.one_mul]
  set K := (len + 2 * v - 1) / v * v with hK
  have hcomm : v * ((len + 2 * v - 1) / v) = K := by rw [hK, Nat.mul_comm]
  rw [hcomm] at hdm
  omega

/-- An averaging block starting at or past the end of the vector fails at
its very first read. -/
theorem avgBlock_oob {ts : List TransformData} {i : ℕ} (v : ℕ)
    (h : ts.length ≤ i) : avgBlock ts i v = none := by
  unfold avgBlock
  rw [List.getElem?_eq_none h]

/-- `averageTransformationData` performs an out-of-bounds access on EVERY
input: because the outer loop runs while `i < size() + vals_per_cloud`, its
final iteration starts at an index at or past the end of the vector. -/
theorem averageTransformationData_eq_none (ts : List TransformData) (v : ℕ)
    (hv : 1 ≤ v) : averageTransformationData ts v = none := by
  have hpass : averagePass ts v = none := by
    unfold averagePass
    obtain ⟨hk1, hge⟩ := avgIters_last_ge ts.length v hv
    refine foldlM_none_of_mem (fun b => b.length = ts.length)
      (fun acc m => avgBlock acc (m * v) v)
      (fun b b2 x hP hx => ?_)
      (avgIters ts.length v - 1)
      (fun b hP => ?_) (List.range (avgIters ts.length v)) ts rfl ?_
    · show b2.length = ts.length
      rw [avgBlock_length hx]
      exact hP
    · show avgBlock b ((avgIters ts.length v - 1) * v) v = none
      refine avgBlock_oob v ?_
      rw [show b.length = ts.length from hP]
      exact hge
    · exact List.mem_range.2 (by omega)
  unfold averageTransformationData
  rw [hpass]

/-- C1: for a raw pose-prior table whose row count is an exact multiple of
`rows_per_frame` (here 10 rows, 10 rows per frame — the configuration used by
`main`), the aggregation does not produce one averaged record per frame: its
outer loop runs while `i < size() + vals_per_cloud`, so its final iteration
reads `transformations[10]` on a 10-element vector, an out-of-bounds access
(undefined behaviour), modelled as `none`. -/
theorem averageTransformationData_oob_on_exact_multiple :
    averageTransformationData (List.replicate 10 ({} : TransformData)) 10 = none := by
  decide

/-- C7: for a raw pose-prior table whose row count is not an exact multiple of
`rows_per_frame` (here 15 rows, 10 rows per frame), the aggregation neither
clamps nor drops the trailing partial group: the outer loop's second
iteration starts at `i = 10` and reads `transformations[10+j]` up to index
19 on a 15-element vector, an out-of-bounds access (undefined behaviour),
modelled as `none`. -/
theorem averageTransformationData_oob_on_partial_group :
    averageTransformationData (List.replicate 15 ({} : TransformData)) 10 = none := by
  decide

/-- Position of the first occurrence of `c` in `s`
(`std::string::find` with a single character), `none` standing for `npos`. -/
def strFind (s : List Char) (c : Char) : Option ℕ := s.findIdx? (· == c)

/-- Position of the last occurrence of `c` in `s`
(`std::string::find_last_of` with a single-character set), `none` standing
for `npos`. -/
def strFindLast (s : List Char) (c : Char) : Option ℕ :=
  (s.reverse.findIdx? (· == c)).map (fun k => s.length - 1 - k)

/-- Error raised by `std::string::substr` when the start position exceeds
the string size. -/
inductive SubstrErr where
  | outOfRange
deriving DecidableEq, Repr

/-- `s.substr(pos, count)` (`std::string::substr`): throws
`std::out_of_range` when `pos > size()`, otherwise clamps `count` to the
remaining length. -/
def substr (s : List Char) (pos count : ℕ) : Except SubstrErr (List Char) :=
  if pos ≤ s.length then .ok ((s.drop pos).take count) else .error .outOfRange

/-- The PCD file filter `filePredicate` (`point_cloud_cleanup.cpp:227-231`
and, identically, `source/main.cpp:23-27`); `true` means the directory entry
is removed.  The C++ `||` short-circuits, so `s.substr(i, 4)` with
`i = s.find(".")` is evaluated only when the name is none of `"."`, `".."`,
`"filtered.pcd"`; for a name without a `'.'`, `find` returns `npos` and
`substr(npos, 4)` throws `std::out_of_range` (since `npos`, the largest
`size_t`, exceeds any string size). -/
def filePredicate (s : String) : Except SubstrErr Bool :=
  if s = "." ∨ s = ".." ∨ s = "filtered.pcd" then .ok true
  else
    match strFind s.data '.' with
    | none => .error .outOfRange
    | some i => (substr s.data i 4).map (fun ext => decide (ext ≠ ".pcd".data))

/-- C10: the PCD file filter is not total.  On the dotless directory-entry
name `"README"` (neither `"."` nor `".."`) it does not return a keep/skip
decision but throws `std::out_of_range` from `substr(npos, 4)`; on any name
that does contain a dot it returns a decision. -/
theorem filePredicate_throws_on_dotless_name :
    filePredicate "README" = .error .outOfRange ∧
    (∀ s : String, '.' ∈ s.data → ∃ b, filePredicate s = .ok b) := by
  refine ⟨by rfl, fun s hdot => ?_⟩
  by_cases hsp : s = "." ∨ s = ".." ∨ s = "filtered.pcd"
  · exact ⟨true, by simp [filePredicate, hsp]⟩
  · cases hfind : strFind s.data '.' with
    | none =>
      exfalso
      rw [strFind, List.findIdx?_eq_none_iff] at hfind
      simpa using hfind '.' hdot
    | some i =>
      have hi : i < s.data.length := by
        have h2 := hfind
        rw [strFind, List.findIdx?_eq_some_iff_getElem] at h2
        exact h2.1
      refine ⟨decide ((s.data.drop i).take 4 ≠ ".pcd".data), ?_⟩
      unfold filePredicate
      rw [if_neg hsp, hfind]
      unfold substr
      have hi2 : i ≤ s.length := hi.le
      simp [hi2, Except.map]

/-- Witness for C10: the eligible name `"scanD1.pcd"` contains a dot, and on
it the filter does return a decision. -/
theorem filePredicate_throws_on_dotless_name_witness :
    ∃ b, filePredicate "scanD1.pcd" = .ok b :=
  filePredicate_throws_on_dotless_name.2 "scanD1.pcd" (by decide)

/-- Digit-prefix semantics of `std::stoi` as exercised by the frame-file
comparator: parse the longest leading run of decimal digits, failing
(`std::invalid_argument`) when there is none.  (Sign handling, which a
`scanD<n>.pcd` slice never triggers, is not modelled.) -/
def stoiOpt (s : List Char) : Option ℕ :=
  let ds := s.takeWhile (·.isDigit)
  if ds = [] then none
  else some (ds.foldl (fun n c => 10 * n + (c.toNat - '0'.toNat)) 0)

/-- Frame-index extraction performed by `compareFileNamesStruct::operator()`
(`source/main.cpp:96-110`): `start = find_last_of("D") + 1` (for a name
without a `'D'`, `npos + 1` wraps to `0` in `size_t` arithmetic),
`end = find(".")`, then `stoi(substr(start, end - start))`.  When `find`
returns `npos`, or when `end < start`, the `size_t` count is huge and
`substr` clamps it to the rest of the string. -/
def extractFrameIdx (s : String) : Option ℕ :=
  let start := match strFindLast s.data 'D' with
    | some k => k + 1
    | none => 0
  let stop := match strFind s.data '.' with
    | some k => k
    | none => s.data.length
  let count := if start ≤ stop then stop - start else s.data.length - start
  stoiOpt ((s.data.drop start).take count)

/-- The comparator `compareFileNamesStruct::operator()`
(`source/main.cpp:96-110`): `a_int < b_int` on the extracted frame indices.
A name on which `stoi` throws is given key `0`; the sorting theorem's
evaluation claims only involve names on which extraction succeeds. -/
def compareFileNames (a b : String) : Bool :=
  decide ((extractFrameIdx a).getD 0 < (extractFrameIdx b).getD 0)

/-- The ordering guaranteed by `std::sort(files.begin(), files.end(), cmp)`
(`source/main.cpp:111`): in the output no later element compares `cmp`-less
than an earlier one, i.e. successive extracted keys are nondecreasing. -/
def fileLe (a b : String) : Prop := compareFileNames b a = false

instance : DecidableRel fileLe := fun a b => by
  unfold fileLe; infer_instance

instance : IsTotal String fileLe :=
  ⟨fun a b => by
    simp only [fileLe, compareFileNames, decide_eq_false_iff_not, Nat.not_lt]
    omega⟩

instance : IsTrans String fileLe :=
  ⟨fun a b c hab hbc => by
    simp only [fileLe, compareFileNames, decide_eq_false_iff_not, Nat.not_lt] at *
    omega⟩

/-- Model of the `std::sort` call (`source/main.cpp:111`): any comparison
sort meeting the `std::sort` postcondition yields a permutation of its input
that is sorted for `fileLe`; on pairwise-distinct keys that output is unique,
so a sorted-permutation model (here `insertionSort`) is faithful. -/
def sortFiles (l : List String) : List String := l.insertionSort fileLe

/-- C3: the batch scheduler visits frames in ascending order of the numeric
index the comparator extracts from each filename (the digits between the
last `'D'` and the first `'.'`), not lexicographically: the sorted file list
is a permutation of the input that is `fileLe`-sorted (successive extracted
indices nondecreasing), and the filenames `scanD2.pcd`, `scanD10.pcd`,
`scanD1.pcd` are reordered to `scanD1.pcd`, `scanD2.pcd`, `scanD10.pcd`. -/
theorem sortFiles_sorts_by_frame_index :
    (∀ l : List String, (sortFiles l).Perm l ∧ (sortFiles l).Sorted fileLe) ∧
    (∀ (a b : String) (ka kb : ℕ), extractFrameIdx a = some ka →
      extractFrameIdx b = some kb → (fileLe a b ↔ ka ≤ kb)) ∧
    sortFiles ["scanD2.pcd", "scanD10.pcd", "scanD1.pcd"] =
      ["scanD1.pcd", "scanD2.pcd", "scanD10.pcd"] := by
  refine ⟨fun l => ⟨List.perm_insertionSort _ _, List.sorted_insertionSort _ _⟩,
    fun a b ka kb ha hb => ?_, by decide⟩
  simp only [fileLe, compareFileNames, ha, hb, Option.getD_some,
    decide_eq_false_iff_not, Nat.not_lt]

/-- Witness for C3: on the eligible names `scanD1.pcd` and `scanD2.pcd` the
comparator order agrees with the numeric frame indices 1 and 2. -/
theorem sortFiles_sorts_by_frame_index_witness :
    fileLe "scanD1.pcd" "scanD2.pcd" ↔ 1 ≤ 2 :=
  sortFiles_sorts_by_frame_index.2.1 "scanD1.pcd" "scanD2.pcd" 1 2
    (by decide) (by decide)

instance {ε α : Type} [DecidableEq ε] [DecidableEq α] : DecidableEq (Except ε α) := fun a b =>
  match a, b with
  | .error e, .error f =>
    if h : e = f then .isTrue (h ▸ rfl) else .isFalse (fun hc => h (Except.error.inj hc))
  | .error _, .ok _ => .isFalse (fun hc => Except.noConfusion hc)
  | .ok _, .error _ => .isFalse (fun hc => Except.noConfusion hc)
  | .ok x, .ok y =>
    if h : x = y then .isTrue (h ▸ rfl) else .isFalse (fun hc => h (Except.ok.inj hc))

/-- Error taxonomy of `getTransformationData` (`source/main.cpp:165-211`):
`malformedInput` is the `std::domain_error` thrown when a data row yields
fewer than 6 values (the spec's `MalformedInputError`); `invalidNumber` is
the `std::invalid_argument` thrown by `std::stod` on a non-numeric cell. -/
inductive ParseErr where
  | malformedInput
  | invalidNumber
deriving DecidableEq, Repr

/-- One delimiter-separated cell of the pose-prior file, already classified
by `std::stod`: `some q` for a cell parsing to the number `q`, `none` for a
cell on which `stod` throws. -/
abbrev Cell := Option ℚ

/-- Sequences the `stod` calls of one row (`source/main.cpp:187-194`):
the C++ while-loop throws at the first non-numeric cell. -/
def stodCells : List Cell → Except ParseErr (List ℚ)
  | [] => .ok []
  | none :: _ => .error .invalidNumber
  | some q :: rest => (stodCells rest).map (q :: ·)

/-- Parsing of one non-header row of the pose-prior file
(`source/main.cpp:183-209`), with `cols_to_skip = 1`: drop the leading label
cell (skipped before `stod` runs, so it may be non-numeric), `stod` the
remaining cells in order, throw `domain_error` when fewer than 6 values
result, otherwise assign positionally `rotx, roty, rotz, dx, dy, dz` and,
when a 7th value exists, `confidence`.  With exactly 6 values the record
keeps the default confidence and the missing-confidence warning is printed;
the `Bool` component records that warning. -/
def parseRow (cells : List Cell) : Except ParseErr (TransformData × Bool) :=
  match stodCells (cells.drop 1) with
  | .error e => .error e
  | .ok (rotx :: roty :: rotz :: dx :: dy :: dz :: rest) =>
    match rest with
    | [] => .ok (⟨dx, dy, dz, rotx, roty, rotz, 0⟩, true)
    | conf :: _ => .ok (⟨dx, dy, dz, rotx, roty, rotz, conf⟩, false)
  | .ok _ => .error .malformedInput

/-- The row loop of `getTransformationData` (`source/main.cpp:175-210`) over
the rows following the skipped header: rows are parsed in order and the
first throw aborts.  (In the C++, rows parsed before a throw remain in the
caller's by-reference vector — `main` swallows the exception at line 73 and
continues with that partial table; no claim depends on the partial output,
so the model returns only the completed table.) -/
def parseRows : List (List Cell) → Except ParseErr (List (TransformData × Bool))
  | [] => .ok []
  | r :: rs =>
    match parseRow r with
    | .error e => .error e
    | .ok x =>
      match parseRows rs with
      | .error e => .error e
      | .ok xs => .ok (x :: xs)

/-- `getTransformationData` (`source/main.cpp:165-211`) with its configured
`rows_to_skip = 1`: skip one header row and parse each remaining row; the
result is the record list in file order plus the number of rows that
triggered the missing-confidence warning. -/
def getTransformationData (rows : List (List Cell)) :
    Except ParseErr (List TransformData × ℕ) :=
  (parseRows (rows.drop 1)).map (fun l => (l.map Prod.fst, l.countP Prod.snd))

/-- Number of numeric columns of a row after the skipped leading column —
the quantity the claim's failure condition is phrased in. -/
def numericCols (cells : List Cell) : ℕ := ((cells.drop 1).filterMap id).length

/-- C8 counterexample: on the table whose single data row is
`[some 1, none]` — a label cell plus one cell `std::stod` rejects — the row
has fewer than 6 numeric columns, yet parsing fails with the `stod`
`invalid_argument` error rather than with the `MalformedInputError`
(`domain_error`) the claim requires for such a row. -/
theorem getTransformationData_error_not_malformed :
    numericCols [some 1, none] < 6 ∧
    getTransformationData [[], [some 1, none]] = .error .invalidNumber ∧
    getTransformationData [[], [some 1, none]] ≠ .error .malformedInput := by
  refine ⟨by decide, by rfl, by decide⟩

/-- A `stodCells` run succeeds exactly on all-numeric rows, returning the
cell values in order. -/
theorem stodCells_ok_iff {l : List Cell} {v : List ℚ} :
    stodCells l = .ok v ↔ l = v.map some := by
  induction l generalizing v with
  | nil =>
    simp only [stodCells]
    constructor
    · intro h; cases h; rfl
    · intro h
      cases v with
      | nil => rfl
      | cons q v2 => cases h
  | cons c rest ih =>
    cases c with
    | none =>
      simp only [stodCells]
      constructor
      · intro h; cases h
      · intro h
        cases v with
        | nil => cases h
        | cons q v' => simp at h
    | some q =>
      simp only [stodCells]
      cases hr : stodCells rest with
      | error e =>
        simp only [Except.map]
        constructor
        · intro h; cases h
        · intro h
          cases v with
          | nil => cases h
          | cons q' v' =>
            simp only [List.map_cons, List.cons.injEq, Option.some.injEq] at h
            have := (@ih v').2 h.2
            rw [this] at hr
            cases hr
      | ok w =>
        simp only [Except.map]
        constructor
        · intro h
          cases h
          rw [(@ih w).1 hr]
          rfl
        · intro h
          cases v with
          | nil => cases h
          | cons q' v' =>
            simp only [List.map_cons, List.cons.injEq, Option.some.injEq] at h
            obtain ⟨hq, hrest⟩ := h
            have := (@ih v').2 hrest
            rw [this] at hr
            cases hr
            rw [hq]

/-- A `stodCells` failure is always the `stod` error, never the
short-row error. -/
theorem stodCells_error_invalid {l : List Cell} {e : ParseErr}
    (h : stodCells l = .error e) : e = .invalidNumber := by
  induction l with
  | nil => cases h
  | cons c rest ih =>
    cases c with
    | none => cases h; rfl
    | some q =>
      simp only [stodCells] at h
      cases hr : stodCells rest with
      | error f =>
        rw [hr] at h
        simp only [Except.map] at h
        cases h
        exact ih hr
      | ok w =>
        rw [hr] at h
        simp only [Except.map] at h
        cases h

/-- An all-numeric row is accepted by `stodCells`. -/
theorem stodCells_ok_of_allSome {l : List Cell}
    (h : ∀ c ∈ l, c.isSome) : ∃ v, stodCells l = .ok v := by
  induction l with
  | nil => exact ⟨[], rfl⟩
  | cons c rest ih =>
    obtain ⟨w, hw⟩ := ih (fun c2 hc2 => h c2 (List.mem_cons_of_mem _ hc2))
    cases c with
    | none => simpa using h none (List.mem_cons_self _ _)
    | some q =>
      refine ⟨q :: w, ?_⟩
      simp only [stodCells, hw, Except.map]

/-- A short all-numeric row triggers the `domain_error` of
`source/main.cpp:197-198`. -/
theorem parseRow_malformed_of_short {cells : List Cell} {v : List ℚ}
    (hstod : stodCells (cells.drop 1) = .ok v) (hlen : v.length < 6) :
    parseRow cells = .error .malformedInput := by
  unfold parseRow
  rw [hstod]
  rcases v with _ | ⟨a, _ | ⟨b, _ | ⟨c, _ | ⟨d, _ | ⟨e, _ | ⟨f, rest⟩⟩⟩⟩⟩⟩ <;>
    first
      | rfl
      | (exfalso; simp at hlen; omega)

/-- A row with at least six values is accepted and assigned positionally
(`source/main.cpp:197-209`). -/
theorem parseRow_ok_of_long {cells : List Cell} {r0 r1 r2 r3 r4 r5 : ℚ}
    {rest : List ℚ}
    (hstod : stodCells (cells.drop 1) = .ok (r0 :: r1 :: r2 :: r3 :: r4 :: r5 :: rest)) :
    parseRow cells = .ok (⟨r3, r4, r5, r0, r1, r2, rest.headD 0⟩, rest.isEmpty) := by
  unfold parseRow
  rw [hstod]
  cases rest <;> rfl

/-- C8 (amended): after skipping the header row and the leading label
column, the remaining values are assigned positionally to
`rotx, roty, rotz, dx, dy, dz[, confidence]`; a row whose remaining cells
are all numeric but fewer than six fails with the `MalformedInputError`
(`std::domain_error`), and this is the only way that error arises — a row
containing a non-numeric cell fails with the `std::stod`
`invalid_argument` instead; an absent 7th column leaves the default
(zero) confidence and raises the non-fatal warning flag.  The whole parse
fails with `MalformedInputError` exactly when the first failing data row is
a short all-numeric row. -/
theorem getTransformationData_malformed_characterisation :
    (∀ cells : List Cell,
      (parseRow cells = .error .malformedInput ↔
        (∀ c ∈ cells.drop 1, c.isSome) ∧ (cells.drop 1).length < 6)) ∧
    (∀ (cells : List Cell) (r0 r1 r2 r3 r4 r5 : ℚ) (rest : List ℚ),
      stodCells (cells.drop 1) = .ok (r0 :: r1 :: r2 :: r3 :: r4 :: r5 :: rest) →
      parseRow cells = .ok (⟨r3, r4, r5, r0, r1, r2, rest.headD 0⟩, rest.isEmpty)) ∧
    (∀ rows : List (List Cell),
      (getTransformationData rows = .error .malformedInput ↔
        ∃ pre row post, rows.drop 1 = pre ++ row :: post ∧
          (∀ r ∈ pre, ∃ x, parseRow r = .ok x) ∧
          parseRow row = .error .malformedInput)) := by
  have hrow : ∀ cells : List Cell,
      (parseRow cells = .error .malformedInput ↔
        (∀ c ∈ cells.drop 1, c.isSome) ∧ (cells.drop 1).length < 6) := by
    intro cells
    constructor
    · intro h
      cases hstod : stodCells (cells.drop 1) with
      | error e =>
        exfalso
        unfold parseRow at h
        rw [hstod] at h
        cases h
        cases stodCells_error_invalid hstod
      | ok v =>
        have hcells := stodCells_ok_iff.1 hstod
        have hall : ∀ c ∈ cells.drop 1, c.isSome := by
          rw [hcells]; intro c hc
          obtain ⟨q, -, rfl⟩ := List.mem_map.1 hc
          rfl
        refine ⟨hall, ?_⟩
        have hlen : (cells.drop 1).length = v.length := by
          rw [hcells, List.length_map]
        rw [hlen]
        by_contra hge
        push_neg at hge
        rcases v with _ | ⟨a, _ | ⟨b, _ | ⟨c, _ | ⟨d, _ | ⟨e, _ | ⟨f, rest⟩⟩⟩⟩⟩⟩ <;>
          simp at hge
        rw [parseRow_ok_of_long hstod] at h
        cases h
    · rintro ⟨hall, hlen⟩
      obtain ⟨v, hv⟩ := stodCells_ok_of_allSome hall
      have : v.length < 6 := by
        have := stodCells_ok_iff.1 hv
        rw [this, List.length_map] at hlen
        exact hlen
      exact parseRow_malformed_of_short hv this
  refine ⟨hrow, fun _ _ _ _ _ _ _ _ h => parseRow_ok_of_long h, fun rows => ?_⟩
  have hlift : ∀ l : List (List Cell),
      (parseRows l = .error .malformedInput ↔
        ∃ pre row post, l = pre ++ row :: post ∧
          (∀ r ∈ pre, ∃ x, parseRow r = .ok x) ∧
          parseRow row = .error .malformedInput) := by
    intro l
    induction l with
    | nil =>
      simp only [parseRows]
      constructor
      · intro h; cases h
      · rintro ⟨pre, row, post, h, -, -⟩
        exact absurd h (by simp)
    | cons r rs ih =>
      constructor
      · intro h
        unfold parseRows at h
        cases hr : parseRow r with
        | error e2 =>
          rw [hr] at h
          cases h
          exact ⟨[], r, rs, rfl, by simp, hr⟩
        | ok x =>
          rw [hr] at h
          cases hrs : parseRows rs with
          | error e2 =>
            rw [hrs] at h
            cases h
            obtain ⟨pre, row, post, h1, h2, h3⟩ := ih.1 hrs
            exact ⟨r :: pre, row, post, by rw [h1, List.cons_append], by
              rintro r2 hr2
              rcases List.mem_cons.1 hr2 with rfl | hm
              · exact ⟨x, hr⟩
              · exact h2 r2 hm, h3⟩
          | ok xs =>
            rw [hrs] at h
            cases h
      · rintro ⟨pre, row, post, hsplit, hok, herr⟩
        cases pre with
        | nil =>
          cases hsplit
          unfold parseRows
          rw [herr]
        | cons p pre2 =>
          cases hsplit
          obtain ⟨x, hx⟩ := hok r (List.mem_cons_self _ _)
          unfold parseRows
          rw [hx]
          have hres : parseRows (pre2 ++ row :: post) = .error .malformedInput :=
            ih.2 ⟨pre2, row, post, rfl,
              fun r2 hr2 => hok r2 (List.mem_cons_of_mem _ hr2), herr⟩
          simp only [List.append_eq]
          rw [hres]
  rw [← hlift (rows.drop 1)]
  unfold getTransformationData
  cases hp : parseRows (rows.drop 1) with
  | error e => simp [Except.map]
  | ok xs =>
    simp only [Except.map]
    constructor
    · intro h; cases h
    · intro h; cases h

/-- Witness for C8 (amended): a concrete header row plus one data row whose
label cell is non-numeric and whose six remaining cells are numeric parses
to the positionally-assigned record with default confidence and the
missing-confidence warning. -/
theorem getTransformationData_malformed_characterisation_witness :
    parseRow [none, some 1, some 2, some 3, some 4, some 5, some 6] =
      .ok (⟨4, 5, 6, 1, 2, 3, 0⟩, true) :=
  getTransformationData_malformed_characterisation.2.1
    [none, some 1, some 2, some 3, some 4, some 5, some 6]
    1 2 3 4 5 6 [] (by rfl)

/-- A 3-D point (`pcl::PointXYZ`); float coordinates modelled as
rationals. -/
structure Point3 where
  x : ℚ
  y : ℚ
  z : ℚ
deriving DecidableEq, Repr

/-- A `pcl::PointCloud<pcl::PointXYZ>`: an ordered list of points. -/
abbrev Cloud := List Point3

/-- `pcl::PassThrough` with `setFilterFieldName`/`setFilterLimits`: keeps
exactly the points whose selected coordinate lies inside the inclusive
limits `[lo, hi]`. -/
def passFilter (field : Point3 → ℚ) (lo hi : ℚ) (c : Cloud) : Cloud :=
  c.filter (fun p => decide (lo ≤ field p) && decide (field p ≤ hi))

/-- The longitudinal band loop of `rectangularThreshold`
(`point_cloud_cleanup.cpp:327-349`): `for (int j = 0; j > -5; --j)` with
band limits `(j - 1, j)`, modelled by a fuel counter for the 5 iterations
and the rational value of `j`.  A band with fewer than 5 points is skipped;
otherwise the RANSAC plane-fit inliers of the band (the external
`pcl::RandomSampleConsensus` collaborator `ransacInliers`) are appended. -/
def bandLoop (ransacInliers : Cloud → Cloud) (sub2 : Cloud) : ℕ → ℚ → Cloud
  | 0, _ => []
  | Nat.succ k, j =>
    (let band := passFilter Point3.z (j - 1) j sub2
     if band.length < 5 then [] else ransacInliers band) ++
    bandLoop ransacInliers sub2 k (j - 1)

/-- One iteration of the wall loop of `rectangularThreshold`
(`point_cloud_cleanup.cpp:289-350`): lateral passthrough on the given
coordinate and bounds, skip if fewer than 5 points, statistical outlier
removal (the external `pcl::StatisticalOutlierRemoval` collaborator `sor`,
with its fixed tuning `MeanK 50`, `StddevMulThresh 1.0`), then the five
z-bands. -/
def wallRegion (sor ransacInliers : Cloud → Cloud) (src : Cloud)
    (field : Point3 → ℚ) (lo hi : ℚ) : Cloud :=
  let sub := passFilter field lo hi src
  if sub.length < 5 then []
  else bandLoop ransacInliers (sor sub) 5 0

/-- `rectangularThreshold` (`point_cloud_cleanup.cpp:277-352`) over the
bounds vector `{min_x, mid_x, max_x, min_y, mid_y, max_y}`; the wall loop's
index arithmetic is unrolled exactly as the code computes it: iterations
`i = 0, 1` filter `x` on `(thresh_range[i], thresh_range[i+1])` and
iterations `i = 2, 3` filter `y` on
`(thresh_range[i+1], thresh_range[i+2])`, and `*ret_cloud +=` concatenates
the four regions in loop order. -/
def rectangularThreshold (sor ransacInliers : Cloud → Cloud) (src : Cloud)
    (b0 b1 b2 b3 b4 b5 : ℚ) : Cloud :=
  wallRegion sor ransacInliers src Point3.x b0 b1 ++
  wallRegion sor ransacInliers src Point3.x b1 b2 ++
  wallRegion sor ransacInliers src Point3.y b3 b4 ++
  wallRegion sor ransacInliers src Point3.y b4 b5

/-- The Wall Segmenter as the claim words it (spec-side definition, to be
compared with `rectangularThreshold`): filter the cloud into the 4 lateral
regions `x ∈ [min_x, mid_x]`, `x ∈ [mid_x, max_x]`, `y ∈ [min_y, mid_y]`,
`y ∈ [mid_y, max_y]`; skip a region with fewer than 5 points; after outlier
removal split each surviving region into the 5 longitudinal z-bands of
width 1 covering `z ∈ [-5, 0]` (in the code's enumeration order — the claim
fixes none); skip a band with fewer than 5 points; return the concatenation
of the RANSAC plane-fit inliers of the remaining bands. -/
def claimWallSegmenter (sor ransacInliers : Cloud → Cloud) (src : Cloud)
    (min_x mid_x max_x min_y mid_y max_y : ℚ) : Cloud :=
  [passFilter Point3.x min_x mid_x src,
   passFilter Point3.x mid_x max_x src,
   passFilter Point3.y min_y mid_y src,
   passFilter Point3.y mid_y max_y src].flatMap (fun region =>
    if region.length < 5 then []
    else
      ([(-1, 0), (-2, -1), (-3, -2), (-4, -3), (-5, -4)] : List (ℚ × ℚ)).flatMap
        (fun bd =>
          let band := passFilter Point3.z bd.1 bd.2 (sor region)
          if band.length < 5 then [] else ransacInliers band))

/-- C2: the Wall Segmenter computes exactly what the claim describes — for
every input cloud, lateral bounds and external outlier-removal/RANSAC
primitives, `rectangularThreshold` equals the region/band/inlier
concatenation `claimWallSegmenter`. -/
theorem rectangularThreshold_matches_claim :
    ∀ (sor ransacInliers : Cloud → Cloud) (src : Cloud)
      (min_x mid_x max_x min_y mid_y max_y : ℚ),
      rectangularThreshold sor ransacInliers src min_x mid_x max_x min_y mid_y max_y =
        claimWallSegmenter sor ransacInliers src min_x mid_x max_x min_y mid_y max_y := by
  intro sor ri src b0 b1 b2 b3 b4 b5
  have hband : ∀ sub2 : Cloud,
      bandLoop ri sub2 5 0 =
        ([(-1, 0), (-2, -1), (-3, -2), (-4, -3), (-5, -4)] : List (ℚ × ℚ)).flatMap
          (fun bd =>
            let band := passFilter Point3.z bd.1 bd.2 sub2
            if band.length < 5 then [] else ri band) := by
    intro sub2
    show bandLoop ri sub2 5 0 = _
    norm_num [bandLoop, List.flatMap_cons, List.flatMap_nil]
  unfold rectangularThreshold claimWallSegmenter wallRegion
  simp only [List.flatMap_cons, List.flatMap_nil, List.append_nil, hband,
    List.append_assoc]

/-- External geometry primitives consumed by `StitchedCloud`
(`stitched_cloud.cpp`): statistical outlier removal, voxel-grid
downsampling, SAC-IA coarse registration and ICP fine registration, all
PCL collaborators outside the core. -/
structure GeomOps where
  removeOutliers : Cloud → ℕ → ℚ → Cloud
  downSample : Cloud → ℚ → Cloud
  registerSAC : Cloud → Cloud → ℕ → Cloud
  registerICP : Cloud → Cloud → ℕ → Cloud

/-- `filterRangeZ` (`source/stitched_cloud.cpp:123-130`): a z-axis
passthrough with inclusive limits. -/
def filterRangeZ (c : Cloud) (minZ maxZ : ℚ) : Cloud :=
  passFilter Point3.z minZ maxZ c

/-- The `StitchedCloud` constructor (`source/stitched_cloud.cpp:3-9`):
the first frame seeds the model through
`removeOutliers(cloud, 100, 2)`, `downSample(cloud, 100)`,
`filterRangeZ(cloud, 0, 10000)`, in that order. -/
def stitchedCloudInit (g : GeomOps) (pc : Cloud) : Cloud :=
  let c1 := g.removeOutliers pc 100 2
  let c2 := g.downSample c1 100
  filterRangeZ c2 0 10000

/-- C9: the very first frame seeds the stitched model directly, undergoing
exactly outlier removal, then downsampling, then the z-range filter — and
no registration step: the seeded model is unchanged under any replacement
of the coarse (SAC) and fine (ICP) registration primitives. -/
theorem stitchedCloudInit_no_registration :
    ∀ (g : GeomOps) (pc : Cloud),
      stitchedCloudInit g pc =
        filterRangeZ (g.downSample (g.removeOutliers pc 100 2) 100) 0 10000 ∧
      ∀ fS fI, stitchedCloudInit
          { g with registerSAC := fS, registerICP := fI } pc =
        stitchedCloudInit g pc :=
  fun _ _ => ⟨rfl, fun _ _ => rfl⟩

/-- A 3-vector over the rational model of `float`. -/
structure V3 where
  x : ℚ
  y : ℚ
  z : ℚ
deriving DecidableEq, Repr

/-- Componentwise vector addition. -/
def V3.add (a b : V3) : V3 := ⟨a.x + b.x, a.y + b.y, a.z + b.z⟩

/-- A 3×3 matrix, row-major fields. -/
structure M3 where
  a11 : ℚ
  a12 : ℚ
  a13 : ℚ
  a21 : ℚ
  a22 : ℚ
  a23 : ℚ
  a31 : ℚ
  a32 : ℚ
  a33 : ℚ
deriving DecidableEq, Repr

/-- Matrix-vector product. -/
def M3.mulVec (m : M3) (v : V3) : V3 :=
  ⟨m.a11 * v.x + m.a12 * v.y + m.a13 * v.z,
   m.a21 * v.x + m.a22 * v.y + m.a23 * v.z,
   m.a31 * v.x + m.a32 * v.y + m.a33 * v.z⟩

/-- Matrix product. -/
def M3.mul (m n : M3) : M3 :=
  ⟨m.a11 * n.a11 + m.a12 * n.a21 + m.a13 * n.a31,
   m.a11 * n.a12 + m.a12 * n.a22 + m.a13 * n.a32,
   m.a11 * n.a13 + m.a12 * n.a23 + m.a13 * n.a33,
   m.a21 * n.a11 + m.a22 * n.a21 + m.a23 * n.a31,
   m.a21 * n.a12 + m.a22 * n.a22 + m.a23 * n.a32,
   m.a21 * n.a13 + m.a22 * n.a23 + m.a23 * n.a33,
   m.a31 * n.a11 + m.a32 * n.a21 + m.a33 * n.a31,
   m.a31 * n.a12 + m.a32 * n.a22 + m.a33 * n.a32,
   m.a31 * n.a13 + m.a32 * n.a23 + m.a33 * n.a33⟩

/-- Identity matrix (`Eigen::Affine3f::Identity` linear part). -/
def idM3 : M3 := ⟨1, 0, 0, 0, 1, 0, 0, 0, 1⟩

/-- Rotation about the x axis: the matrix `Eigen::AngleAxisf(θ, UnitX())`
builds, with `c = cos θ` and `s = sin θ`.  The embedding is over `ℚ`, so an
angle is represented by its cosine-sine pair; the rotation by the negated
angle `-θ` is `rotX c (-s)`. -/
def rotX (c s : ℚ) : M3 := ⟨1, 0, 0, 0, c, -s, 0, s, c⟩

/-- Rotation about the y axis (`Eigen::AngleAxisf(θ, UnitY())`). -/
def rotY (c s : ℚ) : M3 := ⟨c, 0, s, 0, 1, 0, -s, 0, c⟩

/-- Rotation about the z axis (`Eigen::AngleAxisf(θ, UnitZ())`). -/
def rotZ (c s : ℚ) : M3 := ⟨c, -s, 0, s, c, 0, 0, 0, 1⟩

/-- An `Eigen::Affine3f`: linear part plus translation. -/
structure Affine3 where
  linear : M3
  trans : V3

/-- `Eigen::Transform::rotate(R)`: right-multiplies the linear part and
leaves the translation column unchanged. -/
def Affine3.rotate (A : Affine3) (R : M3) : Affine3 := ⟨A.linear.mul R, A.trans⟩

/-- The effect of `pcl::transformPointCloud` on one point: `p ↦ L p + t`. -/
def Affine3.apply (A : Affine3) (p : V3) : V3 := (A.linear.mulVec p).add A.trans

/-- A pose prior as consumed by the transform-applying code: the angles
`rotx, roty, rotz` are represented by their cosine-sine pairs (`cx, sx`,
`cy, sy`, `cz, sz`) — the code only ever uses an angle through the rotation
matrix built from its cosine and sine — plus the offsets `dx, dy, dz`. -/
structure PoseCS where
  cx : ℚ
  sx : ℚ
  cy : ℚ
  sy : ℚ
  cz : ℚ
  sz : ℚ
  dx : ℚ
  dy : ℚ
  dz : ℚ
deriving DecidableEq, Repr

/-- The pose-prior correction of `processPCD`
(`point_cloud_cleanup.cpp:245-254`): start from the identity affine
transform, set the translation to `(-dx, -dy, -dz)`, then
`rotate(AngleAxisf(-rotx, UnitX()))`, `rotate(AngleAxisf(-roty, UnitY()))`,
`rotate(AngleAxisf(-rotz, UnitZ()))`, and apply the result to each point of
the cloud. -/
def processPCDMap (t : PoseCS) (p : V3) : V3 :=
  ((((Affine3.mk idM3 ⟨-t.dx, -t.dy, -t.dz⟩).rotate
      (rotX t.cx (-t.sx))).rotate (rotY t.cy (-t.sy))).rotate
      (rotZ t.cz (-t.sz))).apply p

/-- The pose correction `transform` of the incremental variant
(`source/stitched_cloud.cpp:113-121`): identical rotation calls, but the
translation is set to the non-negated `(dx, dy, dz)`. -/
def stitchedTransformMap (t : PoseCS) (p : V3) : V3 :=
  ((((Affine3.mk idM3 ⟨t.dx, t.dy, t.dz⟩).rotate
      (rotX t.cx (-t.sx))).rotate (rotY t.cy (-t.sy))).rotate
      (rotZ t.cz (-t.sz))).apply p

/-- The Frame Preprocessor's pose correction as the claim words it
(spec-side definition): first translate the point by the negated offset,
then rotate it by the negated angles about the x axis, then the y axis,
then the z axis, in that order. -/
def claimInverseMap (t : PoseCS) (p : V3) : V3 :=
  (rotZ t.cz (-t.sz)).mulVec
    ((rotY t.cy (-t.sy)).mulVec
      ((rotX t.cx (-t.sx)).mulVec (p.add ⟨-t.dx, -t.dy, -t.dz⟩)))

/-- C4 counterexample: for the pose prior with `rotx = π/2` (cosine `0`,
sine `1`), zero y/z rotation and offset `(0, 1, 0)`, the code maps the
origin to `(0, -1, 0)` — the rotation acts on the point first and the
negated offset is added afterwards — while the claim's
translate-then-rotate map sends it to `(0, 0, 1)`. -/
theorem processPCDMap_ne_claimInverseMap :
    processPCDMap ⟨0, 1, 1, 0, 1, 0, 0, 1, 0⟩ ⟨0, 0, 0⟩ = ⟨0, -1, 0⟩ ∧
    claimInverseMap ⟨0, 1, 1, 0, 1, 0, 0, 1, 0⟩ ⟨0, 0, 0⟩ = ⟨0, 0, 1⟩ ∧
    processPCDMap ⟨0, 1, 1, 0, 1, 0, 0, 1, 0⟩ ⟨0, 0, 0⟩ ≠
      claimInverseMap ⟨0, 1, 1, 0, 1, 0, 0, 1, 0⟩ ⟨0, 0, 0⟩ := by
  refine ⟨?_, ?_, ?_⟩ <;>
    norm_num [processPCDMap, claimInverseMap, Affine3.rotate, Affine3.apply,
      M3.mul, M3.mulVec, V3.add, idM3, rotX, rotY, rotZ, V3.mk.injEq]

/-- C4 (amended): for every pose prior and point, `processPCD` applies
`p ↦ Rx(-rotx) (Ry(-roty) (Rz(-rotz) p)) + (-dx, -dy, -dz)`: the
negated-angle rotations are composed in call order about x, then y, then z
— hence act on the point z-rotation first — and the negated offset is added
AFTER the rotations, not before; the incremental variant's `transform`
applies the same composed rotation but adds the NON-negated offset
`(dx, dy, dz)`. -/
theorem processPCD_rotates_before_translating :
    ∀ (t : PoseCS) (p : V3),
      processPCDMap t p =
        ((rotX t.cx (-t.sx)).mulVec ((rotY t.cy (-t.sy)).mulVec
          ((rotZ t.cz (-t.sz)).mulVec p))).add ⟨-t.dx, -t.dy, -t.dz⟩ ∧
      stitchedTransformMap t p =
        ((rotX t.cx (-t.sx)).mulVec ((rotY t.cy (-t.sy)).mulVec
          ((rotZ t.cz (-t.sz)).mulVec p))).add ⟨t.dx, t.dy, t.dz⟩ := by
  intro t p
  constructor <;>
  · simp only [processPCDMap, stitchedTransformMap, Affine3.rotate, Affine3.apply,
      M3.mul, M3.mulVec, V3.add, idM3, rotX, rotY, rotZ, V3.mk.injEq]
    refine ⟨by ring, by ring, by ring⟩

/-- One action of the worker body `processPCD`
(`point_cloud_cleanup.cpp:234-274`), abstracted to its effect on shared
state: the four preprocessing actions (`reader.read`, the pose-prior
transform, the z passthrough, `rectangularThreshold`) touch no shared
merged cloud; `lockM`/`unlockM` are the `std::lock_guard` on `stitch_mutex`
(acquired at line 272, released at function exit); `appendM` is the single
mutation of the shared merged cloud, `*stitched_cloud += *filtered_cloud`
(line 273). -/
inductive WAct where
  | readScan
  | poseTransform
  | zFilter
  | segment
  | lockM
  | appendM
  | unlockM
deriving DecidableEq, Repr

/-- The straight-line body of `processPCD` as an action list, in program
order. -/
def processPCDProgram : List WAct :=
  [.readScan, .poseTransform, .zFilter, .segment, .lockM, .appendM, .unlockM]

/-- Shared-memory state of the worker pool (`main` spawns up to 4 workers
running `processPCD`, `point_cloud_cleanup.cpp:165-192`): each worker's
program counter into `processPCDProgram` and the current holder of
`stitch_mutex`. -/
structure WState (n : ℕ) where
  pc : Fin n → ℕ
  holder : Option (Fin n)

/-- All workers at the start of `processPCD`, mutex free. -/
def initWState (n : ℕ) : WState n := ⟨fun _ => 0, none⟩

/-- The next action of worker `t`. -/
def nextAct {n : ℕ} (s : WState n) (t : Fin n) : Option WAct :=
  processPCDProgram[s.pc t]?

/-- Interleaving small-step semantics: any worker may execute its next
action; acquiring the mutex requires it to be free and releasing requires
being the holder (`std::lock_guard` semantics); every other action —
including the shared-cloud append — is always enabled, so mutual exclusion
of the append is a property to be proved, not an assumption of the
semantics. -/
inductive WStep {n : ℕ} : WState n → WState n → Prop where
  | plain (s : WState n) (t : Fin n) (a : WAct) :
      nextAct s t = some a → a ≠ .lockM → a ≠ .unlockM →
      WStep s ⟨Function.update s.pc t (s.pc t + 1), s.holder⟩
  | acquire (s : WState n) (t : Fin n) :
      nextAct s t = some .lockM → s.holder = none →
      WStep s ⟨Function.update s.pc t (s.pc t + 1), some t⟩
  | release (s : WState n) (t : Fin n) :
      nextAct s t = some .unlockM → s.holder = some t →
      WStep s ⟨Function.update s.pc t (s.pc t + 1), none⟩

/-- Reachability from the initial pool state. -/
inductive WReach {n : ℕ} : WState n → Prop where
  | init : WReach (initWState n)
  | step {s s2 : WState n} : WReach s → WStep s s2 → WReach s2

/-- Pool invariant: every program counter stays in range, and a worker's
counter sits strictly between the `lockM` and `unlockM` actions (counter 5
or 6: `appendM` pending or just executed) exactly when that worker holds
the mutex. -/
def WInv {n : ℕ} (s : WState n) : Prop :=
  ∀ t : Fin n, s.pc t ≤ 7 ∧ ((s.pc t = 5 ∨ s.pc t = 6) ↔ s.holder = some t)

theorem WInv_init (n : ℕ) : WInv (initWState n) := by
  intro t
  refine ⟨?_, ?_⟩ <;> simp [initWState]

/-- A defined next action bounds the program counter. -/
theorem nextAct_lt {n : ℕ} {s : WState n} {t : Fin n} {a : WAct}
    (h : nextAct s t = some a) : s.pc t < 7 := by
  by_contra hge
  push_neg at hge
  unfold nextAct at h
  rw [List.getElem?_eq_none (by simpa [processPCDProgram] using hge)] at h
  cases h

/-- The invariant is preserved by every step. -/
theorem WInv_step {n : ℕ} {s s2 : WState n} (hinv : WInv s) (hstep : WStep s s2) :
    WInv s2 := by
  cases hstep with
  | plain t a hact ha1 ha2 =>
    have hlt := nextAct_lt hact
    have hne4 : s.pc t ≠ 4 := by
      intro h4
      unfold nextAct at hact
      rw [h4] at hact
      simp [processPCDProgram] at hact
      exact ha1 hact.symm
    have hne6 : s.pc t ≠ 6 := by
      intro h6
      unfold nextAct at hact
      rw [h6] at hact
      simp [processPCDProgram] at hact
      exact ha2 hact.symm
    intro u
    by_cases hu : u = t
    · subst hu
      obtain ⟨hb, hiff⟩ := hinv u
      simp only [Function.update_same]
      refine ⟨by omega, ?_⟩
      constructor
      · intro h
        exact hiff.1 (by omega)
      · intro h
        have := hiff.2 h
        omega
    · obtain ⟨hb, hiff⟩ := hinv u
      simp only [Function.update_noteq hu]
      exact ⟨hb, hiff⟩
  | acquire t hact hfree =>
    have hlt := nextAct_lt hact
    have h4 : s.pc t = 4 := by
      obtain ⟨hb, -⟩ := hinv t
      interval_cases h : s.pc t <;>
        simp_all [nextAct, processPCDProgram]
    intro u
    by_cases hu : u = t
    · subst hu
      simp only [Function.update_same, h4]
      exact ⟨by omega, by simp⟩
    · obtain ⟨hb, hiff⟩ := hinv u
      simp only [Function.update_noteq hu]
      refine ⟨hb, ?_⟩
      constructor
      · intro h
        have := hiff.1 h
        rw [hfree] at this
        cases this
      · intro h
        exact absurd (Option.some.inj h).symm hu
  | release t hact hheld =>
    have hlt := nextAct_lt hact
    have h6 : s.pc t = 6 := by
      obtain ⟨hb, -⟩ := hinv t
      interval_cases h : s.pc t <;>
        simp_all [nextAct, processPCDProgram]
    intro u
    by_cases hu : u = t
    · subst hu
      simp only [Function.update_same, h6]
      refine ⟨by omega, ?_⟩
      constructor
      · intro h; omega
      · intro h; cases h
    · obtain ⟨hb, hiff⟩ := hinv u
      simp only [Function.update_noteq hu]
      refine ⟨hb, ?_⟩
      constructor
      · intro h
        have h2 := hiff.1 h
        rw [hheld] at h2
        injection h2 with h3
        exact absurd h3 (fun hh => hu hh.symm)
      · intro h; cases h

/-- Every reachable state satisfies the invariant. -/
theorem WReach_inv {n : ℕ} {s : WState n} (h : WReach s) : WInv s := by
  induction h with
  | init => exact WInv_init n
  | step hr hs ih => exact WInv_step ih hs

/-- In `processPCDProgram`, `appendM` is pending exactly at counter 5. -/
theorem nextAct_appendM {n : ℕ} {s : WState n} {t : Fin n}
    (h : nextAct s t = some .appendM) : s.pc t = 5 := by
  have hlt := nextAct_lt h
  interval_cases hpc : s.pc t <;> simp_all [nextAct, processPCDProgram]

/-- C5: in every reachable interleaving of concurrent `processPCD` workers,
a worker about to execute the append to the shared merged cloud — the
only action that mutates it — holds `stitch_mutex`; and structurally the
worker body is the four preprocessing actions (read, pose transform,
z-filter, wall segmentation — this parallel variant has no separate
registration stage) followed by exactly `lock; append; unlock`, so all
per-frame preprocessing completes before the lock is acquired and the lock
is held only across the append. -/
theorem processPCD_append_only_under_lock :
    (∀ (n : ℕ) (s : WState n) (t : Fin n), WReach s →
      nextAct s t = some .appendM → s.holder = some t) ∧
    processPCDProgram =
      [.readScan, .poseTransform, .zFilter, .segment] ++
        [.lockM, .appendM, .unlockM] := by
  refine ⟨fun n s t hreach hact => ?_, rfl⟩
  have hinv := WReach_inv hreach
  have h5 := nextAct_appendM hact
  exact (hinv t).2.1 (Or.inl h5)

/-- Stage 0 of a concrete single-worker execution: the initial pool. -/
def cs0 : WState 1 := initWState 1

/-- Stage 1: after `reader.read`. -/
def cs1 : WState 1 := ⟨Function.update cs0.pc 0 (cs0.pc 0 + 1), cs0.holder⟩

/-- Stage 2: after the pose-prior transform. -/
def cs2 : WState 1 := ⟨Function.update cs1.pc 0 (cs1.pc 0 + 1), cs1.holder⟩

/-- Stage 3: after the z passthrough. -/
def cs3 : WState 1 := ⟨Function.update cs2.pc 0 (cs2.pc 0 + 1), cs2.holder⟩

/-- Stage 4: after `rectangularThreshold`. -/
def cs4 : WState 1 := ⟨Function.update cs3.pc 0 (cs3.pc 0 + 1), cs3.holder⟩

/-- Stage 5: after acquiring `stitch_mutex`; the append is now pending. -/
def cs5 : WState 1 := ⟨Function.update cs4.pc 0 (cs4.pc 0 + 1), some 0⟩

/-- Witness for C5: the concrete worker that has run its whole
preprocessing pipeline and acquired the mutex is about to append, and the
theorem reports it as the mutex holder. -/
theorem processPCD_append_only_under_lock_witness : cs5.holder = some 0 :=
  processPCD_append_only_under_lock.1 1 cs5 0
    (WReach.step (WReach.step (WReach.step (WReach.step (WReach.step WReach.init
      (WStep.plain cs0 0 .readScan rfl (by decide) (by decide)))
      (WStep.plain cs1 0 .poseTransform rfl (by decide) (by decide)))
      (WStep.plain cs2 0 .zFilter rfl (by decide) (by decide)))
      (WStep.plain cs3 0 .segment rfl (by decide) (by decide)))
      (WStep.acquire cs4 0 rfl rfl))
    rfl

end TunnelDrone
